import Mathlib

/-!
# Verification of `tagmap` (`src/lib.rs`)

A shallow embedding of the `tagmap` Rust crate: a `TagMap` is a `BTreeMap`
from keys to tag lists, queried with a recursive `MatchRule` evaluated by
`tags_match_rule`.  We model the `BTreeMap` as an association list whose
keys are strictly sorted (the `BTreeMap` iteration invariant), tag sets as
`List TAG`, and the two iterators `Matching` / `MatchingEntries` by the
lists of items they yield when consumed.
-/

namespace TagMapSpec

/-- `MatchRule<TAG>` from `src/lib.rs`: a rule of how to match against tags. -/
inductive MatchRule (TAG : Type) where
  /-- Match all given tags. -/
  | Tags : List TAG → MatchRule TAG
  /-- Don't match any given tag. -/
  | NotTags : List TAG → MatchRule TAG
  /-- Match any given tag. -/
  | AnyTag : List TAG → MatchRule TAG
  /-- Match all given rules. -/
  | Rules : List (MatchRule TAG) → MatchRule TAG
  /-- Don't match any given rule. -/
  | NotRules : List (MatchRule TAG) → MatchRule TAG
  /-- Match any given rule. -/
  | AnyRule : List (MatchRule TAG) → MatchRule TAG

variable {TAG : Type} [DecidableEq TAG] {T : Type}

/-- The double counting loop of the `Tags` arm of `tags_match_rule`:
for each `m_tag` in `m_tags`, for each `tag` in `tags`, increment `count`
when `tag == m_tag`. -/
def tagsCount (tags m_tags : List TAG) : Nat :=
  m_tags.foldl (fun count m_tag =>
    tags.foldl (fun c tag => if tag = m_tag then c + 1 else c) count) 0

/-- The double loop of the `NotTags` / `AnyTag` arms: does any `m_tag` of
`m_tags` occur (by `==`) among `tags`?  `AnyTag` returns this, `NotTags`
returns its negation (early `return` inside the loops). -/
def anyTagHit (tags m_tags : List TAG) : Bool :=
  m_tags.any (fun m_tag => tags.any (fun tag => tag = m_tag))

mutual

/-- `tags_match_rule` from `src/lib.rs`: evaluate a `MatchRule` against a
tag list. -/
def tags_match_rule (tags : List TAG) : MatchRule TAG → Bool
  | .Tags m_tags => tagsCount tags m_tags == m_tags.length
  | .NotTags m_tags => ! anyTagHit tags m_tags
  | .AnyTag m_tags => anyTagHit tags m_tags
  | .Rules rules => rulesCount tags rules == rules.length
  | .NotRules rules => ! rulesAny tags rules
  | .AnyRule rules => rulesAny tags rules

/-- The counting loop of the `Rules` arm: how many of the nested rules
match `tags`. -/
def rulesCount (tags : List TAG) : List (MatchRule TAG) → Nat
  | [] => 0
  | r :: rs => (if tags_match_rule tags r then 1 else 0) + rulesCount tags rs

/-- The early-return loop of the `NotRules` / `AnyRule` arms: does any of
the nested rules match `tags`. -/
def rulesAny (tags : List TAG) : List (MatchRule TAG) → Bool
  | [] => false
  | r :: rs => tags_match_rule tags r || rulesAny tags rs

end

/-- `TagMap<T, TAG>`: the inner `BTreeMap<T, Vec<TAG>>` modelled as the
association list of its entries in iteration order.  The `BTreeMap`
invariant (strictly ascending keys) is carried as a hypothesis where a
claim needs it. -/
structure TagMap (T TAG : Type) where
  entries : List (T × List TAG)

/-- The list of keys yielded by consuming the `Matching` iterator returned
by `TagMap::matching`: walk `entries.iter()` in order, test each entry's
tags with `tags_match_rule`, yield the key of each passing entry. -/
def TagMap.matching (m : TagMap T TAG) (rule : MatchRule TAG) : List T :=
  (m.entries.filter (fun e => tags_match_rule e.2 rule)).map Prod.fst

/-- The list of pairs yielded by consuming the `MatchingEntries` iterator
returned by `TagMap::matching_entries`: same walk, yielding `(key, tags)`
for each passing entry. -/
def TagMap.matching_entries (m : TagMap T TAG) (rule : MatchRule TAG) :
    List (T × List TAG) :=
  m.entries.filter (fun e => tags_match_rule e.2 rule)

/-- The concrete map of the spec's worked scenario, entries listed in
`BTreeMap` iteration order (ascending keys). -/
def animalMap : TagMap String String :=
  ⟨[("elephant", ["mammal", "herbivore", "large"]),
    ("mouse", ["mammal", "herbivore", "small"]),
    ("shark", ["fish", "carnivore", "large"]),
    ("snake", ["reptile", "carnivore", "poisonous"])]⟩

/-- `rulesCount` never exceeds the number of rules: each nested rule adds
at most one to the count. -/
theorem rulesCount_le (tags : List TAG) (rs : List (MatchRule TAG)) :
    rulesCount tags rs ≤ rs.length := by
  induction rs with
  | nil => simp [rulesCount]
  | cons r rs ih =>
    cases h : tags_match_rule tags r <;> simp [rulesCount, h] <;> omega

/-- The count of matching nested rules reaches the length exactly when all
nested rules match. -/
theorem rulesCount_eq_length_iff (tags : List TAG) (rs : List (MatchRule TAG)) :
    rulesCount tags rs = rs.length ↔ ∀ r ∈ rs, tags_match_rule tags r = true := by
  induction rs with
  | nil => simp [rulesCount]
  | cons r rs ih =>
    have hle := rulesCount_le tags rs
    cases h : tags_match_rule tags r with
    | false =>
      simp only [rulesCount, h, List.length_cons, List.mem_cons,
        Bool.false_eq_true, if_false]
      constructor
      · intro heq; omega
      · intro hall
        have hr := hall r (Or.inl rfl)
        rw [h] at hr
        cases hr
    | true =>
      simp only [rulesCount, h, List.length_cons, List.mem_cons, if_true]
      constructor
      · intro heq r' hmem
        rcases hmem with rfl | hmem
        · exact h
        · exact (ih.mp (by omega)) r' hmem
      · intro hall
        have : rulesCount tags rs = rs.length := ih.mpr (fun r' hm => hall r' (Or.inr hm))
        omega

/-- C1: the spec says `Tags(ms)` is true iff every tag of `ms` occurs at
least once in `tags`, multiplicity ignored.  The code instead compares the
total match count with `ms.len()`: on `tags = [0, 0]` and `ms = [0, 1]` the
duplicate of `0` is counted twice, the count reaches 2 = `ms.len()`, and
the rule reports true even though `1` never occurs in the tag set —
contradicting the arm's documentation "Match all given tags". -/
theorem C1_tags_arm_counting_bug :
    tags_match_rule ([0, 0] : List Nat) (.Tags [0, 1]) = true
    ∧ (1 : Nat) ∉ ([0, 0] : List Nat) := by
  constructor
  · rfl
  · decide

/-- C2: for a map whose keys are distinct (the `BTreeMap` invariant),
consuming `matching(r)` yields exactly the keys whose stored tag set
matches `r` — every such key appears, no other key appears, and no key is
yielded twice. -/
theorem C2_matching_complete_no_dup (m : TagMap T TAG) (rule : MatchRule TAG)
    (hkeys : (m.entries.map Prod.fst).Nodup) :
    (∀ k, k ∈ m.matching rule ↔
      ∃ ts, (k, ts) ∈ m.entries ∧ tags_match_rule ts rule = true)
    ∧ (m.matching rule).Nodup := by
  constructor
  · intro k
    simp only [TagMap.matching, List.mem_map, List.mem_filter]
    constructor
    · rintro ⟨⟨a, ts⟩, ⟨hmem, hp⟩, rfl⟩
      exact ⟨ts, hmem, hp⟩
    · rintro ⟨ts, hmem, hp⟩
      exact ⟨(k, ts), ⟨hmem, hp⟩, rfl⟩
  · have hsub : ((m.entries.filter (fun e => tags_match_rule e.2 rule)).map
        Prod.fst).Sublist (m.entries.map Prod.fst) :=
      (List.filter_sublist _).map Prod.fst
    exact hkeys.sublist hsub

/-- C2 witness: the concrete scenario map has distinct keys, and
`matching(Tags(["mammal"]))` on it satisfies the completeness and
no-duplicates property. -/
theorem C2_matching_complete_no_dup_witness :
    ((animalMap.entries.map Prod.fst).Nodup)
    ∧ ((∀ k, k ∈ animalMap.matching (.Tags ["mammal"]) ↔
        ∃ ts, (k, ts) ∈ animalMap.entries
          ∧ tags_match_rule ts (.Tags ["mammal"]) = true)
       ∧ (animalMap.matching (.Tags ["mammal"])).Nodup) :=
  ⟨by decide, C2_matching_complete_no_dup animalMap (.Tags ["mammal"]) (by decide)⟩

/-- C3: `matching_entries(r)` yields the same keys, in the same order, as
`matching(r)` (so the same key set), and every pair it yields is literally
an entry of the map — each key comes with exactly the tag list stored for
it. -/
theorem C3_matching_entries_agree (m : TagMap T TAG) (rule : MatchRule TAG) :
    (m.matching_entries rule).map Prod.fst = m.matching rule
    ∧ ∀ p ∈ m.matching_entries rule, p ∈ m.entries := by
  refine ⟨rfl, fun p hp => ?_⟩
  exact (List.mem_filter.mp hp).1

/-- C4: on an empty list every variant follows the vacuous-truth
convention: `Tags([])`, `NotTags([])`, `Rules([])` and `NotRules([])`
are true on any tag set, `AnyTag([])` and `AnyRule([])` are false. -/
theorem C4_empty_list_conventions (S : List TAG) :
    tags_match_rule S (.Tags []) = true
    ∧ tags_match_rule S (.NotTags []) = true
    ∧ tags_match_rule S (.AnyTag []) = false
    ∧ tags_match_rule S (.Rules []) = true
    ∧ tags_match_rule S (.NotRules []) = true
    ∧ tags_match_rule S (.AnyRule []) = false :=
  ⟨rfl, rfl, rfl, rfl, rfl, rfl⟩

/-- C5 counterexample: the claim "`NotTags(L)` and `AnyTag(L)` are
complementary exactly when `L` is non-empty" fails at `S = []`, `L = []`:
there `NotTags([])` is true and `AnyTag([])` is false — complementary —
yet `L` is empty, refuting the "only if" direction of the claimed
equivalence. -/
theorem C5_complement_iff_nonempty_cex :
    ¬ ((tags_match_rule ([] : List Nat) (.NotTags [])
          = ! tags_match_rule ([] : List Nat) (.AnyTag []))
        ↔ ([] : List Nat) ≠ []) := by
  decide

/-- C5 (amended): `NotTags(L)` and `AnyTag(L)` return complementary boolean
values for every tag set `S` and every list `L`, the empty list included;
non-emptiness of `L` is not required. -/
theorem C5_complementary_for_all (S L : List TAG) :
    tags_match_rule S (.NotTags L) = true
      ↔ tags_match_rule S (.AnyTag L) = false := by
  show (! anyTagHit S L) = true ↔ anyTagHit S L = false
  cases anyTagHit S L <;> simp

/-- C6: `Rules(rs)` is true exactly when every nested rule matches: each
nested rule contributes at most one to the count, so `count == rules.len()`
is equivalent to universal quantification over `rs`. -/
theorem C6_rules_iff_all (tags : List TAG) (rs : List (MatchRule TAG)) :
    tags_match_rule tags (.Rules rs) = true
      ↔ ∀ r ∈ rs, tags_match_rule tags r = true := by
  show (rulesCount tags rs == rs.length) = true ↔ _
  rw [beq_iff_eq]
  exact rulesCount_eq_length_iff tags rs

/-- C7: on the concrete scenario map, `matching` yields (in key order)
exactly the sets the spec lists for the five rules: `Tags(["mammal"])` →
{elephant, mouse}; `NotTags(["mammal"])` → {shark, snake};
`Rules([Tags(["carnivore"]), NotTags(["poisonous"])])` → {shark};
`AnyTag(["reptile", "fish"])` → {shark, snake};
`AnyRule([Rules([Tags(["carnivore"]), NotTags(["large"])]),
Tags(["herbivore"])])` → {elephant, mouse, snake}. -/
theorem C7_concrete_scenario :
    animalMap.matching (.Tags ["mammal"]) = ["elephant", "mouse"]
    ∧ animalMap.matching (.NotTags ["mammal"]) = ["shark", "snake"]
    ∧ animalMap.matching (.Rules [.Tags ["carnivore"], .NotTags ["poisonous"]])
        = ["shark"]
    ∧ animalMap.matching (.AnyTag ["reptile", "fish"]) = ["shark", "snake"]
    ∧ animalMap.matching (.AnyRule [.Rules [.Tags ["carnivore"],
        .NotTags ["large"]], .Tags ["herbivore"]])
        = ["elephant", "mouse", "snake"] :=
  ⟨rfl, rfl, rfl, rfl, rfl⟩

/-- C8: when the map's keys are strictly ascending (the `BTreeMap`
iteration invariant), the keys yielded by `matching(r)` — and by
`matching_entries(r)` — are strictly ascending too: matching entries come
out in sorted key order. -/
theorem C8_matching_in_key_order {T : Type} [LT T]
    (m : TagMap T TAG) (rule : MatchRule TAG)
    (hsorted : (m.entries.map Prod.fst).Pairwise (· < ·)) :
    (m.matching rule).Pairwise (· < ·)
    ∧ ((m.matching_entries rule).map Prod.fst).Pairwise (· < ·) := by
  have hsub : ((m.entries.filter (fun e => tags_match_rule e.2 rule)).map
      Prod.fst).Sublist (m.entries.map Prod.fst) :=
    (List.filter_sublist _).map Prod.fst
  exact ⟨hsorted.sublist hsub, hsorted.sublist hsub⟩

/-- A small `Nat`-keyed map with ascending keys, for exercising the key
order property on a concrete input. -/
def natKeyMap : TagMap Nat String :=
  ⟨[(1, ["mammal", "herbivore"]), (2, ["fish", "carnivore"]),
    (3, ["reptile", "carnivore"])]⟩

/-- C8 witness: a concrete map with strictly ascending keys, on which the
keys yielded for `NotTags(["mammal"])` come out in ascending order. -/
theorem C8_matching_in_key_order_witness :
    ((natKeyMap.entries.map Prod.fst).Pairwise (· < ·))
    ∧ ((natKeyMap.matching (.NotTags ["mammal"])).Pairwise (· < ·)
       ∧ ((natKeyMap.matching_entries (.NotTags ["mammal"])).map
            Prod.fst).Pairwise (· < ·)) :=
  ⟨by decide, C8_matching_in_key_order natKeyMap (.NotTags ["mammal"]) (by decide)⟩

/-- C9: rule evaluation is total — for every tag set and every (finite)
rule tree, `tags_match_rule` is defined and returns one of the two boolean
values, with no error outcome; the recursion is on structurally smaller
nested rules. -/
theorem C9_evaluation_total (S : List TAG) (r : MatchRule TAG) :
    tags_match_rule S r = true ∨ tags_match_rule S r = false := by
  cases h : tags_match_rule S r
  · exact Or.inr rfl
  · exact Or.inl rfl

/-- C10: for every tag set `S` and every list `L` — the empty list
included — `NotTags(L)` evaluates to the negation of `AnyTag(L)`: the two
arms run the same double loop with opposite results. -/
theorem C10_notTags_eq_not_anyTag (S L : List TAG) :
    tags_match_rule S (.NotTags L) = ! tags_match_rule S (.AnyTag L) :=
  rfl

end TagMapSpec
